import Mathlib

/-!
Verification of the news crawler core (`src/news_crawler.py`).

The Python code is embedded shallowly:

* Network and parser behaviour is an oracle `Env`: `robotsNet` models the
  `session.get(origin + "/robots.txt")` call together with
  `RobotFileParser.parse` (`none` = the request raised, which the code turns
  into an empty, allow-all parser); `staticNet url n` models the combined
  outcome of `_download_static` + `_parse_article` on the n-th static attempt
  for `url` (`exn` = some exception was raised inside the `try`);
  `pwNet` likewise for `_download_playwright`; `playwrightAvailable` models
  `async_playwright is not None`.
* Time is logical: only `asyncio.sleep` advances the clock, by the slept
  amount.  Every content download is recorded as an `Event` stamped with the
  clock at which it starts.
* `RobotsCache` carries an instrumentation field `fetchLog` recording, in
  order, the domains for which `fetch` ran (the spec's "fetch counter").
-/

set_option maxHeartbeats 1000000

/-- Mirrors the `ArticleData` dataclass of `news_crawler.py`. -/
structure ArticleData where
  url : String
  title : Option String := none
  text : Option String := none
  authors : Option (List String) := none
  published : Option String := none
  deriving DecidableEq

/-- Outcome of one download+parse attempt for a URL: either an
`ArticleData` value was produced, or an exception escaped into the
`except` handler of the retry loop. -/
inductive FetchResult where
  | ok (a : ArticleData)
  | exn

/-- A robots parser as the crawler observes it: `can_fetch('*', url)` and
`crawl_delay('*')` (`none` models Python `None`). -/
structure Policy where
  canFetch : String → Bool
  crawlDelay : Option Nat

/-- The parser obtained from `parser.parse([])`: allows everything and has
no crawl delay. -/
def emptyPolicy : Policy := { canFetch := fun _ => true, crawlDelay := none }

/-- Instrumentation: one event per content download call, stamped with the
logical time at which the call starts. -/
inductive Event where
  | staticAttempt (url : String) (t : Nat)
  | renderedAttempt (url : String) (t : Nat)
  deriving DecidableEq

def Event.time : Event → Nat
  | .staticAttempt _ t => t
  | .renderedAttempt _ t => t

def Event.isStatic : Event → Bool
  | .staticAttempt _ _ => true
  | .renderedAttempt _ _ => false

def Event.isRendered : Event → Bool
  | .staticAttempt _ _ => false
  | .renderedAttempt _ _ => true

/-- The external world as the crawler sees it. -/
structure Env where
  robotsNet : String → Option Policy
  staticNet : String → Nat → FetchResult
  pwNet : String → Nat → FetchResult
  playwrightAvailable : Bool

/-- Locate the `"://"` separator: returns the characters before it and
after it. -/
def findSchemeSep : List Char → Option (List Char × List Char)
  | [] => none
  | ':' :: '/' :: '/' :: rest => some ([], rest)
  | c :: rest => (findSchemeSep rest).map (fun p => (c :: p.1, p.2))

/-- `f"{urlparse(url).scheme}://{urlparse(url).netloc}"`: scheme and host
part of an absolute URL (the netloc ends at the first `/`, `?` or `#`). -/
def origin (url : String) : String :=
  match findSchemeSep url.data with
  | some (scheme, rest) =>
      ⟨scheme ++ [':', '/', '/'] ++
        rest.takeWhile (fun c => c != '/' && c != '?' && c != '#')⟩
  | none => "://"

/-- Truthiness of `article.text.strip()`: the string contains at least one
non-whitespace character. -/
def strippedNonEmpty (s : String) : Bool :=
  s.data.any (fun c => !c.isWhitespace)

/-- `RobotsCache` of `news_crawler.py`, with dictionaries as association
lists (newest entry first, mirroring dict overwrite) plus the `fetchLog`
instrumentation. -/
structure RobotsCache where
  parsers : List (String × Policy)
  delays : List (String × Nat)
  fetchLog : List String

def emptyRobotsCache : RobotsCache := { parsers := [], delays := [], fetchLog := [] }

/-- `RobotsCache.fetch`: request `domain + "/robots.txt"`; on any failure
parse the empty rule list.  Stores the parser and
`parser.crawl_delay('*') or 0`. -/
def RobotsCache.fetch (env : Env) (rc : RobotsCache) (domain : String) : RobotsCache :=
  let parser := (env.robotsNet domain).getD emptyPolicy
  { parsers := (domain, parser) :: rc.parsers
    delays := (domain, parser.crawlDelay.getD 0) :: rc.delays
    fetchLog := rc.fetchLog ++ [domain] }

/-- `RobotsCache.allowed`: look the domain up, fetching it first when it is
not yet cached; answer `(can_fetch('*', url), delays.get(domain, 0))`.
The updated cache is returned explicitly. -/
def RobotsCache.allowed (env : Env) (rc : RobotsCache) (url : String) :
    RobotsCache × Bool × Nat :=
  let domain := origin url
  match rc.parsers.lookup domain with
  | some parser => (rc, parser.canFetch url, (rc.delays.lookup domain).getD 0)
  | none =>
      let rc' := RobotsCache.fetch env rc domain
      let parser := (rc'.parsers.lookup domain).getD emptyPolicy
      (rc', parser.canFetch url, (rc'.delays.lookup domain).getD 0)

/-- One retry loop of `fetch_article` (`for attempt in range(1, max_retries+1)`),
structurally recursive in the number of remaining iterations; `attempt` is the
1-based loop index, so `remaining = 0` inside the body means
`attempt == self.max_retries`.  On a raised exception the loop sleeps the
linear backoff `attempt` unless the budget is exhausted; an empty-text parse
falls through to the next iteration without sleeping.  Returns the article
(if any), the clock, and the event list with this loop's download events
appended. -/
def attemptLoop (net : Nat → FetchResult) (mkEv : Nat → Event) :
    Nat → Nat → Nat → List Event → Option ArticleData × Nat × List Event
  | 0, _, clock, evs => (none, clock, evs)
  | remaining + 1, attempt, clock, evs =>
      let evs' := evs ++ [mkEv clock]
      match net attempt with
      | .ok a =>
          match a.text with
          | some s =>
              if strippedNonEmpty s then (some a, clock, evs')
              else attemptLoop net mkEv remaining (attempt + 1) clock evs'
          | none =>
              if remaining = 0 then (none, clock, evs')
              else attemptLoop net mkEv remaining (attempt + 1) (clock + attempt) evs'
      | .exn =>
          if remaining = 0 then (none, clock, evs')
          else attemptLoop net mkEv remaining (attempt + 1) (clock + attempt) evs'

/-- `NewsCrawler.fetch_article`: robots check, politeness sleep, static
retry loop, then playwright fallback (abandoned at once when playwright is
not installed).  Returns the per-URL result, the updated robots cache, the
clock, and the download events of this URL. -/
def fetch_article (env : Env) (rc : RobotsCache) (clock : Nat) (maxRetries : Nat)
    (url : String) : Option ArticleData × RobotsCache × Nat × List Event :=
  let r := RobotsCache.allowed env rc url
  if r.2.1 = false then (none, r.1, clock, [])
  else
    let clock1 := clock + r.2.2
    let s := attemptLoop (env.staticNet url) (Event.staticAttempt url) maxRetries 1 clock1 []
    match s.1 with
    | some a => (some a, r.1, s.2.1, s.2.2)
    | none =>
        if env.playwrightAvailable = false then (none, r.1, s.2.1, s.2.2)
        else
          let p := attemptLoop (env.pwNet url) (Event.renderedAttempt url) maxRetries 1 s.2.1 s.2.2
          (p.1, r.1, p.2.1, p.2.2)

/-- `NewsCrawler()` is constructed with the default `max_retries = 3` in
`scrape_urls`. -/
def defaultMaxRetries : Nat := 3

/-- The loop body of `scrape_urls`: process each URL in order, appending
`data` to the results only when it is truthy (a dataclass instance always
is, so exactly when `fetch_article` returned a record). -/
def scrapeLoop (env : Env) :
    List String → RobotsCache → Nat → List ArticleData × RobotsCache × Nat × List Event
  | [], rc, clock => ([], rc, clock, [])
  | url :: rest, rc, clock =>
      let f := fetch_article env rc clock defaultMaxRetries url
      let r := scrapeLoop env rest f.2.1 f.2.2.1
      (match f.1 with
       | some a => a :: r.1
       | none => r.1,
       r.2.1, r.2.2.1, f.2.2.2 ++ r.2.2.2)

/-- `scrape_urls`: a fresh `NewsCrawler` (empty robots cache,
`max_retries = 3`), then the sequential per-URL loop starting at clock 0. -/
def scrape_urls (env : Env) (urls : List String) :
    List ArticleData × RobotsCache × Nat × List Event :=
  scrapeLoop env urls emptyRobotsCache 0

/-- `scrape_urls_sync`: `[data.__dict__ for data in ...]` — the `__dict__`
view of a dataclass carries exactly the record's fields, so it is the
identity on the embedded record type. -/
def scrape_urls_sync (env : Env) (urls : List String) : List ArticleData :=
  (scrape_urls env urls).1

/-- `main`: runs the batch and prints the JSON.  The function body contains
no `sys.exit` and no argument validation, and the model is total, so the
process exit status is 0 for every invocation; the second component records
that status. -/
def NewsCrawlerCli.main (env : Env) (urls : List String) : List ArticleData × Nat :=
  (scrape_urls_sync env urls, 0)

/-! ## Derived views of the code -/

/-- The policy the session will use for `url`'s origin: the parsed robots
file when the fetch succeeds, the empty allow-all parser otherwise. -/
def resolvedPolicy (env : Env) (url : String) : Policy :=
  (env.robotsNet (origin url)).getD emptyPolicy

/-- Effect of one `allowed` call on the cache: fetch the domain exactly when
it is not cached yet. -/
def cacheStep (env : Env) (rc : RobotsCache) (domain : String) : RobotsCache :=
  match rc.parsers.lookup domain with
  | some _ => rc
  | none => RobotsCache.fetch env rc domain

/-- Every cached parser is the one the network (or the failure fallback)
produces for its domain, and the delay table agrees with it.  All states
reachable from the empty cache satisfy this. -/
def NetConsistent (env : Env) (rc : RobotsCache) : Prop :=
  ∀ d p, rc.parsers.lookup d = some p →
    p = (env.robotsNet d).getD emptyPolicy ∧
      rc.delays.lookup d = some (p.crawlDelay.getD 0)

/-- Result component of `attemptLoop`, independent of clock and event
accumulator. -/
def loopResult (net : Nat → FetchResult) : Nat → Nat → Option ArticleData
  | 0, _ => none
  | remaining + 1, attempt =>
      match net attempt with
      | .ok a =>
          match a.text with
          | some s =>
              if strippedNonEmpty s then some a
              else loopResult net remaining (attempt + 1)
          | none => loopResult net remaining (attempt + 1)
      | .exn => loopResult net remaining (attempt + 1)

/-- The per-URL outcome of `fetch_article` as a pure function of the
environment: policy gate, static loop, then rendered loop only when
playwright is importable. -/
def urlOutcome (env : Env) (m : Nat) (url : String) : Option ArticleData :=
  if (resolvedPolicy env url).canFetch url then
    match loopResult (env.staticNet url) m 1 with
    | some a => some a
    | none =>
        if env.playwrightAvailable then loopResult (env.pwNet url) m 1 else none
  else none

/-- Per-URL optional outcomes of a batch, one slot per input URL, threading
cache and clock exactly as `scrape_urls` does. -/
def crawlOutcomes (env : Env) :
    List String → RobotsCache → Nat → List (Option ArticleData)
  | [], _, _ => []
  | url :: rest, rc, clock =>
      let f := fetch_article env rc clock defaultMaxRetries url
      f.1 :: crawlOutcomes env rest f.2.1 f.2.2.1

/-- Start times of the attempts of a retry loop all of whose attempts raise:
starting at attempt `a` and clock `c` with `r` iterations left, the loop
sleeps the backoff `a` between one attempt and the next. -/
def exnTimes : Nat → Nat → Nat → List Nat
  | 0, _, _ => []
  | r + 1, a, c => c :: exnTimes r (a + 1) (c + a)

/-- Final clock of such a loop (the last attempt does not sleep). -/
def exnClock : Nat → Nat → Nat → Nat
  | 0, _, c => c
  | r + 1, a, c => if r = 0 then c else exnClock r (a + 1) (c + a)

/-- First-occurrence deduplication relative to an already-seen list. -/
def dedupFrom (seen : List String) : List String → List String
  | [] => []
  | x :: xs =>
      if seen.contains x then dedupFrom seen xs
      else x :: dedupFrom (x :: seen) xs

/-! ## Derived batch views and concrete instances -/

/-- The first URL's `fetch_article` call inside `scrape_urls` (fresh cache,
clock 0, default retries). -/
def batchFirst (env : Env) (u1 : String) :
    Option ArticleData × RobotsCache × Nat × List Event :=
  fetch_article env emptyRobotsCache 0 defaultMaxRetries u1

/-- The second URL's `fetch_article` call inside `scrape_urls`, fed the cache
and clock left by the first. -/
def batchSecond (env : Env) (u1 u2 : String) :
    Option ArticleData × RobotsCache × Nat × List Event :=
  fetch_article env (batchFirst env u1).2.1 (batchFirst env u1).2.2.1 defaultMaxRetries u2

/-- A robots parser that allows every path, with the given crawl delay. -/
def polAllowAll (d : Option Nat) : Policy := { canFetch := fun _ => true, crawlDelay := d }

/-- A robots parser that disallows every path. -/
def polBlockAll : Policy := { canFetch := fun _ => false, crawlDelay := none }

/-- World where every origin's robots file blocks everything. -/
def envC1 : Env :=
  { robotsNet := fun _ => some polBlockAll
    staticNet := fun _ _ => FetchResult.exn
    pwNet := fun _ _ => FetchResult.exn
    playwrightAvailable := true }

/-- World where robots fetches fail (allow-all fallback), every download
raises, and playwright is importable. -/
def envC2w : Env :=
  { robotsNet := fun _ => none
    staticNet := fun _ _ => FetchResult.exn
    pwNet := fun _ _ => FetchResult.exn
    playwrightAvailable := true }

/-- World where every robots fetch fails. -/
def envC4w : Env :=
  { robotsNet := fun _ => none
    staticNet := fun _ _ => FetchResult.exn
    pwNet := fun _ _ => FetchResult.exn
    playwrightAvailable := false }

/-- World where robots fetches fail, every static download times out, and
playwright is not installed. -/
def envC5x : Env :=
  { robotsNet := fun _ => none
    staticNet := fun _ _ => FetchResult.exn
    pwNet := fun _ _ => FetchResult.exn
    playwrightAvailable := false }

/-- A successfully extracted article for the batch-isolation scenario. -/
def artC6 : ArticleData := { url := "http://a/good", text := some "ok" }

/-- World with one blocked path, one good URL and otherwise failing
downloads. -/
def envC6w : Env :=
  { robotsNet := fun _ =>
      some { canFetch := fun u => u != "http://a/blocked", crawlDelay := none }
    staticNet := fun u _ => if u == "http://a/good" then FetchResult.ok artC6 else FetchResult.exn
    pwNet := fun _ _ => FetchResult.exn
    playwrightAvailable := false }

/-- World whose robots policy sets crawl delay 5 while every download
raises. -/
def envC7x : Env :=
  { robotsNet := fun _ => some (polAllowAll (some 5))
    staticNet := fun _ _ => FetchResult.exn
    pwNet := fun _ _ => FetchResult.exn
    playwrightAvailable := false }

/-- World whose robots policy sets crawl delay 2 while every download
raises. -/
def envC7w : Env :=
  { robotsNet := fun _ => some (polAllowAll (some 2))
    staticNet := fun _ _ => FetchResult.exn
    pwNet := fun _ _ => FetchResult.exn
    playwrightAvailable := false }

/-- An article with non-empty extracted text. -/
def artC8 : ArticleData := { url := "http://a/b", text := some "hi" }

/-- World where the first static download already yields `artC8`. -/
def envC8w : Env :=
  { robotsNet := fun _ => none
    staticNet := fun _ _ => FetchResult.ok artC8
    pwNet := fun _ _ => FetchResult.exn
    playwrightAvailable := false }

/-- Minimal world for exercising the command-line entry point. -/
def envC9x : Env :=
  { robotsNet := fun _ => none
    staticNet := fun _ _ => FetchResult.exn
    pwNet := fun _ _ => FetchResult.exn
    playwrightAvailable := false }

/-! ## Cache lemmas -/

theorem netConsistent_empty (env : Env) : NetConsistent env emptyRobotsCache := by
  intro d p h
  simp [emptyRobotsCache, List.lookup] at h

theorem lookup_fetch_self (env : Env) (rc : RobotsCache) (d : String) :
    (RobotsCache.fetch env rc d).parsers.lookup d =
      some ((env.robotsNet d).getD emptyPolicy) := by
  simp [RobotsCache.fetch, List.lookup]

theorem netConsistent_fetch (env : Env) (rc : RobotsCache) (d : String)
    (h : NetConsistent env rc) : NetConsistent env (RobotsCache.fetch env rc d) := by
  intro d' p hp
  simp only [RobotsCache.fetch, List.lookup] at hp ⊢
  by_cases hd : d' = d
  · subst hd
    simp only [beq_self_eq_true] at hp ⊢
    cases hp
    exact ⟨rfl, rfl⟩
  · have hbeq : (d' == d) = false := beq_eq_false_iff_ne.mpr hd
    simp only [hbeq] at hp ⊢
    exact h d' p hp

theorem netConsistent_cacheStep (env : Env) (rc : RobotsCache) (d : String)
    (h : NetConsistent env rc) : NetConsistent env (cacheStep env rc d) := by
  unfold cacheStep
  cases hl : rc.parsers.lookup d
  · exact netConsistent_fetch env rc d h
  · exact h

theorem allowed_eq (env : Env) (rc : RobotsCache) (url : String)
    (h : NetConsistent env rc) :
    RobotsCache.allowed env rc url =
      (cacheStep env rc (origin url),
       (resolvedPolicy env url).canFetch url,
       (resolvedPolicy env url).crawlDelay.getD 0) := by
  unfold RobotsCache.allowed cacheStep resolvedPolicy
  cases hl : rc.parsers.lookup (origin url) with
  | some parser =>
      obtain ⟨hp, hd⟩ := h (origin url) parser hl
      simp [hl, hp, hd]
  | none =>
      simp only [hl]
      have hself := lookup_fetch_self env rc (origin url)
      simp only [hself, Option.getD_some]
      have hdel : (RobotsCache.fetch env rc (origin url)).delays.lookup (origin url) =
          some (((env.robotsNet (origin url)).getD emptyPolicy).crawlDelay.getD 0) := by
        simp [RobotsCache.fetch, List.lookup]
      simp [hdel]

theorem allowed_fst (env : Env) (rc : RobotsCache) (url : String) :
    (RobotsCache.allowed env rc url).1 = cacheStep env rc (origin url) := by
  unfold RobotsCache.allowed cacheStep
  cases hl : rc.parsers.lookup (origin url) <;> simp [hl]

theorem fetch_article_rc (env : Env) (rc : RobotsCache) (clock m : Nat) (url : String) :
    (fetch_article env rc clock m url).2.1 = cacheStep env rc (origin url) := by
  have h := allowed_fst env rc url
  simp only [fetch_article]
  split
  · exact h
  · split
    · exact h
    · split
      · exact h
      · exact h

/-! ## Retry-loop lemmas -/

theorem attemptLoop_fst (net : Nat → FetchResult) (mkEv : Nat → Event) :
    ∀ r a c evs, (attemptLoop net mkEv r a c evs).1 = loopResult net r a := by
  intro r
  induction r with
  | zero => intro a c evs; rfl
  | succ n ih =>
      intro a c evs
      simp only [attemptLoop, loopResult]
      cases hnet : net a with
      | ok art =>
          dsimp only
          cases hart : art.text with
          | some s =>
              dsimp only
              by_cases hs : strippedNonEmpty s = true
              · rw [if_pos hs, if_pos hs]
              · rw [if_neg hs, if_neg hs]
                exact ih (a + 1) c _
          | none =>
              dsimp only
              by_cases hn : n = 0
              · subst hn
                rw [if_pos rfl]
                rfl
              · rw [if_neg hn]
                exact ih (a + 1) (c + a) _
      | exn =>
          dsimp only
          by_cases hn : n = 0
          · subst hn
            rw [if_pos rfl]
            rfl
          · rw [if_neg hn]
            exact ih (a + 1) (c + a) _

theorem loopResult_exn (net : Nat → FetchResult) (h : ∀ n, net n = FetchResult.exn) :
    ∀ r a, loopResult net r a = none := by
  intro r
  induction r with
  | zero => intro a; rfl
  | succ n ih => intro a; simp only [loopResult, h a]; exact ih (a + 1)

theorem loopResult_some (net : Nat → FetchResult) :
    ∀ r a art, loopResult net r a = some art →
      ∃ s, art.text = some s ∧ strippedNonEmpty s = true := by
  intro r
  induction r with
  | zero => intro a art h; exact absurd h (by simp [loopResult])
  | succ n ih =>
      intro a art h
      simp only [loopResult] at h
      cases hnet : net a with
      | ok b =>
          rw [hnet] at h
          dsimp only at h
          cases hb : b.text with
          | some s =>
              rw [hb] at h
              dsimp only at h
              by_cases hs : strippedNonEmpty s = true
              · rw [if_pos hs] at h
                cases h
                exact ⟨s, hb, hs⟩
              · rw [if_neg hs] at h
                exact ih (a + 1) art h
          | none =>
              rw [hb] at h
              dsimp only at h
              exact ih (a + 1) art h
      | exn =>
          rw [hnet] at h
          dsimp only at h
          exact ih (a + 1) art h

theorem attemptLoop_exn (net : Nat → FetchResult) (mkEv : Nat → Event)
    (h : ∀ n, net n = FetchResult.exn) :
    ∀ r a c evs, attemptLoop net mkEv r a c evs =
      (none, exnClock r a c, evs ++ (exnTimes r a c).map mkEv) := by
  intro r
  induction r with
  | zero => intro a c evs; simp [attemptLoop, exnClock, exnTimes]
  | succ n ih =>
      intro a c evs
      simp only [attemptLoop, h a, exnClock, exnTimes]
      by_cases hn : n = 0
      · subst hn
        simp [exnTimes]
      · rw [if_neg hn, if_neg hn, ih (a + 1) (c + a) (evs ++ [mkEv c])]
        simp [List.map_cons]

theorem attemptLoop_accum (net : Nat → FetchResult) (mkEv : Nat → Event) :
    ∀ r a c evs, attemptLoop net mkEv r a c evs =
      ((attemptLoop net mkEv r a c []).1, (attemptLoop net mkEv r a c []).2.1,
        evs ++ (attemptLoop net mkEv r a c []).2.2) := by
  intro r
  induction r with
  | zero => intro a c evs; simp [attemptLoop]
  | succ n ih =>
      intro a c evs
      simp only [attemptLoop]
      cases hnet : net a with
      | ok art =>
          dsimp only
          cases hart : art.text with
          | some s =>
              dsimp only
              by_cases hs : strippedNonEmpty s = true
              · rw [if_pos hs, if_pos hs]
                simp
              · rw [if_neg hs, if_neg hs]
                rw [ih (a + 1) c (evs ++ [mkEv c]), ih (a + 1) c ([] ++ [mkEv c])]
                simp
          | none =>
              dsimp only
              by_cases hn : n = 0
              · subst hn
                rw [if_pos rfl, if_pos rfl]
                simp
              · rw [if_neg hn, if_neg hn]
                rw [ih (a + 1) (c + a) (evs ++ [mkEv c]), ih (a + 1) (c + a) ([] ++ [mkEv c])]
                simp
      | exn =>
          dsimp only
          by_cases hn : n = 0
          · subst hn
            rw [if_pos rfl, if_pos rfl]
            simp
          · rw [if_neg hn, if_neg hn]
            rw [ih (a + 1) (c + a) (evs ++ [mkEv c]), ih (a + 1) (c + a) ([] ++ [mkEv c])]
            simp

theorem attemptLoop_clock_le (net : Nat → FetchResult) (mkEv : Nat → Event) :
    ∀ r a c evs, c ≤ (attemptLoop net mkEv r a c evs).2.1 := by
  intro r
  induction r with
  | zero => intro a c evs; exact Nat.le_refl c
  | succ n ih =>
      intro a c evs
      simp only [attemptLoop]
      cases hnet : net a with
      | ok art =>
          dsimp only
          cases hart : art.text with
          | some s =>
              dsimp only
              by_cases hs : strippedNonEmpty s = true
              · rw [if_pos hs]
              · rw [if_neg hs]
                exact ih (a + 1) c _
          | none =>
              dsimp only
              by_cases hn : n = 0
              · subst hn
                rw [if_pos rfl]
              · rw [if_neg hn]
                exact Nat.le_trans (Nat.le_add_right c a) (ih (a + 1) (c + a) _)
      | exn =>
          dsimp only
          by_cases hn : n = 0
          · subst hn
            rw [if_pos rfl]
          · rw [if_neg hn]
            exact Nat.le_trans (Nat.le_add_right c a) (ih (a + 1) (c + a) _)

theorem attemptLoop_events (net : Nat → FetchResult) (mkEv : Nat → Event) :
    ∀ r a c e, e ∈ (attemptLoop net mkEv r a c []).2.2 →
      ∃ t, e = mkEv t ∧ c ≤ t ∧ t ≤ (attemptLoop net mkEv r a c []).2.1 := by
  intro r
  induction r with
  | zero => intro a c e he; exact absurd he (by simp [attemptLoop])
  | succ n ih =>
      intro a c e he
      simp only [attemptLoop] at he ⊢
      cases hnet : net a with
      | ok art =>
          rw [hnet] at he
          dsimp only at he ⊢
          cases hart : art.text with
          | some s =>
              rw [hart] at he
              dsimp only at he ⊢
              by_cases hs : strippedNonEmpty s = true
              · rw [if_pos hs] at he ⊢
                simp at he
                exact ⟨c, he, Nat.le_refl c, Nat.le_refl c⟩
              · rw [if_neg hs] at he ⊢
                rw [attemptLoop_accum net mkEv n (a + 1) c ([] ++ [mkEv c])] at he ⊢
                simp at he
                rcases he with he | he
                · exact ⟨c, he, Nat.le_refl c,
                    by simpa using attemptLoop_clock_le net mkEv n (a + 1) c []⟩
                · obtain ⟨t, ht, hct, htc⟩ := ih (a + 1) c e he
                  exact ⟨t, ht, hct, by simpa using htc⟩
          | none =>
              rw [hart] at he
              dsimp only at he ⊢
              by_cases hn : n = 0
              · rw [if_pos hn] at he ⊢
                simp at he
                exact ⟨c, he, Nat.le_refl c, Nat.le_refl c⟩
              · rw [if_neg hn] at he ⊢
                rw [attemptLoop_accum net mkEv n (a + 1) (c + a) ([] ++ [mkEv c])] at he ⊢
                simp at he
                rcases he with he | he
                · refine ⟨c, he, Nat.le_refl c, ?_⟩
                  exact Nat.le_trans (Nat.le_add_right c a)
                    (by simpa using attemptLoop_clock_le net mkEv n (a + 1) (c + a) [])
                · obtain ⟨t, ht, hct, htc⟩ := ih (a + 1) (c + a) e he
                  exact ⟨t, ht, Nat.le_trans (Nat.le_add_right c a) hct, by simpa using htc⟩
      | exn =>
          rw [hnet] at he
          dsimp only at he ⊢
          by_cases hn : n = 0
          · rw [if_pos hn] at he ⊢
            simp at he
            exact ⟨c, he, Nat.le_refl c, Nat.le_refl c⟩
          · rw [if_neg hn] at he ⊢
            rw [attemptLoop_accum net mkEv n (a + 1) (c + a) ([] ++ [mkEv c])] at he ⊢
            simp at he
            rcases he with he | he
            · refine ⟨c, he, Nat.le_refl c, ?_⟩
              exact Nat.le_trans (Nat.le_add_right c a)
                (by simpa using attemptLoop_clock_le net mkEv n (a + 1) (c + a) [])
            · obtain ⟨t, ht, hct, htc⟩ := ih (a + 1) (c + a) e he
              exact ⟨t, ht, Nat.le_trans (Nat.le_add_right c a) hct, by simpa using htc⟩

/-! ## Per-URL and batch characterization -/

theorem fetch_article_fst (env : Env) (rc : RobotsCache) (c m : Nat) (url : String)
    (h : NetConsistent env rc) :
    (fetch_article env rc c m url).1 = urlOutcome env m url := by
  simp only [fetch_article, allowed_eq env rc url h, urlOutcome]
  cases hcf : (resolvedPolicy env url).canFetch url with
  | false => simp
  | true =>
      simp only [Bool.true_eq_false, if_neg (by simp : ¬True = False), if_pos trivial]
      simp only [attemptLoop_fst]
      cases hlr : loopResult (env.staticNet url) m 1 with
      | some a => simp
      | none =>
          cases hpw : env.playwrightAvailable with
          | false => simp [attemptLoop_fst]
          | true => simp [attemptLoop_fst]

theorem netConsistent_fetch_article (env : Env) (rc : RobotsCache) (c m : Nat)
    (url : String) (h : NetConsistent env rc) :
    NetConsistent env (fetch_article env rc c m url).2.1 := by
  rw [fetch_article_rc]
  exact netConsistent_cacheStep env rc (origin url) h

theorem crawlOutcomes_eq (env : Env) :
    ∀ urls rc c, NetConsistent env rc →
      crawlOutcomes env urls rc c = urls.map (urlOutcome env defaultMaxRetries) := by
  intro urls
  induction urls with
  | nil => intro rc c _; rfl
  | cons url rest ih =>
      intro rc c h
      simp only [crawlOutcomes, List.map_cons]
      rw [fetch_article_fst env rc c defaultMaxRetries url h,
        ih _ _ (netConsistent_fetch_article env rc c defaultMaxRetries url h)]

theorem scrapeLoop_fst (env : Env) :
    ∀ urls rc c, (scrapeLoop env urls rc c).1 = (crawlOutcomes env urls rc c).reduceOption := by
  intro urls
  induction urls with
  | nil => intro rc c; rfl
  | cons url rest ih =>
      intro rc c
      simp only [scrapeLoop, crawlOutcomes]
      cases hf : (fetch_article env rc c defaultMaxRetries url).1 with
      | some a => simp [List.reduceOption_cons_of_some, ih]
      | none => simp [List.reduceOption_cons_of_none, ih]

theorem crawlOutcomes_length (env : Env) :
    ∀ urls rc c, (crawlOutcomes env urls rc c).length = urls.length := by
  intro urls
  induction urls with
  | nil => intro rc c; rfl
  | cons url rest ih => intro rc c; simp [crawlOutcomes, ih]

theorem scrape_urls_fst (env : Env) (urls : List String) :
    (scrape_urls env urls).1 = (urls.map (urlOutcome env defaultMaxRetries)).reduceOption := by
  rw [scrape_urls, scrapeLoop_fst, crawlOutcomes_eq env urls emptyRobotsCache 0 (netConsistent_empty env)]

/-! ## Robots fetch log -/

theorem lookup_none_iff_contains (l : List (String × Policy)) (d : String) :
    l.lookup d = none ↔ (l.map Prod.fst).contains d = false := by
  induction l with
  | nil => simp [List.lookup]
  | cons kv t ih =>
      obtain ⟨k, v⟩ := kv
      by_cases hdk : d = k
      · subst hdk
        simp [List.lookup]
      · have hbeq : (d == k) = false := beq_eq_false_iff_ne.mpr hdk
        simp [List.lookup, hbeq, ih, List.contains_cons]

theorem cacheStep_of_contains (env : Env) (rc : RobotsCache) (d : String)
    (h : (rc.parsers.map Prod.fst).contains d = true) : cacheStep env rc d = rc := by
  unfold cacheStep
  cases hl : rc.parsers.lookup d with
  | some p => rfl
  | none =>
      rw [(lookup_none_iff_contains rc.parsers d).mp hl] at h
      cases h

theorem cacheStep_of_not_contains (env : Env) (rc : RobotsCache) (d : String)
    (h : (rc.parsers.map Prod.fst).contains d = false) :
    cacheStep env rc d = RobotsCache.fetch env rc d := by
  unfold cacheStep
  cases hl : rc.parsers.lookup d with
  | some p =>
      have := (lookup_none_iff_contains rc.parsers d).mpr h
      rw [hl] at this
      cases this
  | none => rfl

theorem contains_cons_false (x y : String) (seen : List String)
    (hxy : (x == y) = false) (h : seen.contains x = false) :
    (y :: seen).contains x = false := by
  simp only [List.contains_cons, hxy, Bool.false_or]
  exact h

theorem scrapeLoop_fetchLog (env : Env) :
    ∀ urls rc c, (scrapeLoop env urls rc c).2.1.fetchLog =
      rc.fetchLog ++ dedupFrom (rc.parsers.map Prod.fst) (urls.map origin) := by
  intro urls
  induction urls with
  | nil => intro rc c; simp [scrapeLoop, dedupFrom]
  | cons url rest ih =>
      intro rc c
      simp only [scrapeLoop, List.map_cons, dedupFrom]
      rw [ih, fetch_article_rc]
      by_cases hc : (rc.parsers.map Prod.fst).contains (origin url) = true
      · rw [if_pos hc, cacheStep_of_contains env rc (origin url) hc]
      · have hc' : (rc.parsers.map Prod.fst).contains (origin url) = false :=
          Bool.eq_false_iff.mpr hc
        rw [if_neg hc, cacheStep_of_not_contains env rc (origin url) hc']
        simp [RobotsCache.fetch]

theorem dedupFrom_sub :
    ∀ (l seen : List String) (x : String), x ∈ dedupFrom seen l →
      x ∈ l ∧ seen.contains x = false := by
  intro l
  induction l with
  | nil => intro seen x hx; exact absurd hx (by simp [dedupFrom])
  | cons y ys ih =>
      intro seen x hx
      simp only [dedupFrom] at hx
      by_cases hc : seen.contains y = true
      · rw [if_pos hc] at hx
        obtain ⟨hmem, hnc⟩ := ih seen x hx
        exact ⟨List.mem_cons_of_mem y hmem, hnc⟩
      · rw [if_neg hc] at hx
        rcases List.mem_cons.mp hx with hxy | hx'
        · subst hxy
          exact ⟨List.mem_cons_self x ys, Bool.eq_false_iff.mpr hc⟩
        · obtain ⟨hmem, hnc⟩ := ih (y :: seen) x hx'
          refine ⟨List.mem_cons_of_mem y hmem, ?_⟩
          simp only [List.contains_cons, Bool.or_eq_false_iff] at hnc
          exact hnc.2

theorem dedupFrom_mem :
    ∀ (l seen : List String) (x : String), x ∈ l → seen.contains x = false →
      x ∈ dedupFrom seen l := by
  intro l
  induction l with
  | nil => intro seen x hx _; cases hx
  | cons y ys ih =>
      intro seen x hx hnc
      simp only [dedupFrom]
      rcases List.mem_cons.mp hx with hxy | hx'
      · subst hxy
        rw [if_neg (by rw [hnc]; exact Bool.false_ne_true)]
        exact List.mem_cons_self x _
      · by_cases hc : seen.contains y = true
        · rw [if_pos hc]
          exact ih seen x hx' hnc
        · rw [if_neg hc]
          by_cases hxy : x = y
          · subst hxy
            exact List.mem_cons_self x _
          · exact List.mem_cons_of_mem y
              (ih (y :: seen) x hx'
                (contains_cons_false x y seen (beq_eq_false_iff_ne.mpr hxy) hnc))

theorem dedupFrom_nodup : ∀ (l seen : List String), (dedupFrom seen l).Nodup := by
  intro l
  induction l with
  | nil => intro seen; simp [dedupFrom]
  | cons y ys ih =>
      intro seen
      simp only [dedupFrom]
      by_cases hc : seen.contains y = true
      · rw [if_pos hc]
        exact ih seen
      · rw [if_neg hc]
        refine List.nodup_cons.mpr ⟨?_, ih (y :: seen)⟩
        intro hy
        have h2 := (dedupFrom_sub ys (y :: seen) y hy).2
        simp [List.contains_cons] at h2

/-! ## Timing lemmas -/

theorem exnTimes_length : ∀ r a c, (exnTimes r a c).length = r := by
  intro r
  induction r with
  | zero => intro a c; rfl
  | succ n ih => intro a c; simp [exnTimes, ih]

theorem exnTimes_get :
    ∀ i r a c, i + 1 < r →
      (exnTimes r a c).get? (i + 1) = ((exnTimes r a c).get? i).map (fun t => t + (a + i)) := by
  intro i
  induction i with
  | zero =>
      intro r a c hr
      match r, hr with
      | n + 2, _ =>
          have hn : 0 < n + 1 := Nat.succ_pos n
          simp only [exnTimes]
          match n with
          | m => simp [exnTimes]
  | succ j ih =>
      intro r a c hr
      match r, hr with
      | n + 1, hr =>
          have hj : j + 1 < n := by omega
          simp only [exnTimes, List.get?]
          rw [ih n (a + 1) (c + a) hj]
          have harith : a + 1 + j = a + (j + 1) := by omega
          rw [harith]

theorem attemptLoop_head (net : Nat → FetchResult) (mkEv : Nat → Event)
    (r a c : Nat) (hr : 0 < r) :
    (attemptLoop net mkEv r a c []).2.2.head? = some (mkEv c) := by
  match r, hr with
  | n + 1, _ =>
      simp only [attemptLoop]
      cases hnet : net a with
      | ok art =>
          dsimp only
          cases hart : art.text with
          | some s =>
              dsimp only
              by_cases hs : strippedNonEmpty s = true
              · rw [if_pos hs]
                rfl
              · rw [if_neg hs]
                rw [attemptLoop_accum net mkEv n (a + 1) c ([] ++ [mkEv c])]
                rfl
          | none =>
              dsimp only
              by_cases hn : n = 0
              · rw [if_pos hn]
                rfl
              · rw [if_neg hn]
                rw [attemptLoop_accum net mkEv n (a + 1) (c + a) ([] ++ [mkEv c])]
                rfl
      | exn =>
          dsimp only
          by_cases hn : n = 0
          · rw [if_pos hn]
            rfl
          · rw [if_neg hn]
            rw [attemptLoop_accum net mkEv n (a + 1) (c + a) ([] ++ [mkEv c])]
            rfl

/-! ## Per-URL trace lemmas -/

theorem head_append_some {α : Type} (l l' : List α) (x : α) (h : l.head? = some x) :
    (l ++ l').head? = some x := by
  cases l with
  | nil => cases h
  | cons y t => simpa using h

theorem fetch_article_blocked (env : Env) (rc : RobotsCache) (c m : Nat) (url : String)
    (h : NetConsistent env rc) (hcf : (resolvedPolicy env url).canFetch url = false) :
    fetch_article env rc c m url = (none, cacheStep env rc (origin url), c, []) := by
  simp [fetch_article, allowed_eq env rc url h, hcf]

theorem fetch_article_exn_nopw (env : Env) (rc : RobotsCache) (c m : Nat) (url : String)
    (h : NetConsistent env rc) (hcf : (resolvedPolicy env url).canFetch url = true)
    (hexn : ∀ n, env.staticNet url n = FetchResult.exn)
    (hpw : env.playwrightAvailable = false) :
    (fetch_article env rc c m url).1 = none ∧
      (fetch_article env rc c m url).2.2.2 =
        (exnTimes m 1 (c + (resolvedPolicy env url).crawlDelay.getD 0)).map
          (Event.staticAttempt url) := by
  have hs := attemptLoop_exn (env.staticNet url) (Event.staticAttempt url) hexn m 1
    (c + (resolvedPolicy env url).crawlDelay.getD 0) []
  simp [fetch_article, allowed_eq env rc url h, hcf, hs, hpw]

theorem fetch_article_exn_trace (env : Env) (rc : RobotsCache) (c m : Nat) (url : String)
    (h : NetConsistent env rc) (hcf : (resolvedPolicy env url).canFetch url = true)
    (hexn : ∀ n, env.staticNet url n = FetchResult.exn) :
    ∃ pwEvs, (fetch_article env rc c m url).2.2.2 =
        (exnTimes m 1 (c + (resolvedPolicy env url).crawlDelay.getD 0)).map
          (Event.staticAttempt url) ++ pwEvs ∧
      ∀ e ∈ pwEvs, e.isRendered = true ∧
        exnClock m 1 (c + (resolvedPolicy env url).crawlDelay.getD 0) ≤ e.time := by
  have hs := attemptLoop_exn (env.staticNet url) (Event.staticAttempt url) hexn m 1
    (c + (resolvedPolicy env url).crawlDelay.getD 0) []
  cases hpw : env.playwrightAvailable with
  | false =>
      refine ⟨[], ?_, by simp⟩
      simp [fetch_article, allowed_eq env rc url h, hcf, hs, hpw]
  | true =>
      refine ⟨(attemptLoop (env.pwNet url) (Event.renderedAttempt url) m 1
        (exnClock m 1 (c + (resolvedPolicy env url).crawlDelay.getD 0)) []).2.2, ?_, ?_⟩
      · simp only [fetch_article, allowed_eq env rc url h, hcf, hs]
        rw [attemptLoop_accum (env.pwNet url) (Event.renderedAttempt url) m 1
          (exnClock m 1 (c + (resolvedPolicy env url).crawlDelay.getD 0))]
        simp [hpw]
      · intro e he
        obtain ⟨t, ht, hct, _⟩ := attemptLoop_events (env.pwNet url)
          (Event.renderedAttempt url) m 1
          (exnClock m 1 (c + (resolvedPolicy env url).crawlDelay.getD 0)) e he
        subst ht
        exact ⟨rfl, hct⟩

theorem fetch_article_clock_ge (env : Env) (rc : RobotsCache) (c m : Nat) (url : String) :
    c ≤ (fetch_article env rc c m url).2.2.1 := by
  simp only [fetch_article]
  split
  · exact Nat.le_refl c
  · split
    · exact Nat.le_trans (Nat.le_add_right c _)
        (attemptLoop_clock_le (env.staticNet url) (Event.staticAttempt url) m 1 _ [])
    · split
      · exact Nat.le_trans (Nat.le_add_right c _)
          (attemptLoop_clock_le (env.staticNet url) (Event.staticAttempt url) m 1 _ [])
      · have h1 : c + (RobotsCache.allowed env rc url).2.2 ≤
            (attemptLoop (env.staticNet url) (Event.staticAttempt url) m 1
              (c + (RobotsCache.allowed env rc url).2.2) []).2.1 :=
          attemptLoop_clock_le (env.staticNet url) (Event.staticAttempt url) m 1 _ []
        have h2 := attemptLoop_clock_le (env.pwNet url) (Event.renderedAttempt url) m 1
          (attemptLoop (env.staticNet url) (Event.staticAttempt url) m 1
            (c + (RobotsCache.allowed env rc url).2.2) []).2.1
          (attemptLoop (env.staticNet url) (Event.staticAttempt url) m 1
            (c + (RobotsCache.allowed env rc url).2.2) []).2.2
        exact Nat.le_trans (Nat.le_add_right c _) (Nat.le_trans h1 h2)

theorem fetch_article_events_bounds (env : Env) (rc : RobotsCache) (c m : Nat)
    (url : String) (h : NetConsistent env rc) :
    ∀ e ∈ (fetch_article env rc c m url).2.2.2,
      c + (resolvedPolicy env url).crawlDelay.getD 0 ≤ e.time ∧
        e.time ≤ (fetch_article env rc c m url).2.2.1 := by
  intro e he
  simp only [fetch_article, allowed_eq env rc url h] at he ⊢
  set d := (resolvedPolicy env url).crawlDelay.getD 0 with hd
  set st := attemptLoop (env.staticNet url) (Event.staticAttempt url) m 1 (c + d) [] with hst
  by_cases hcf : (resolvedPolicy env url).canFetch url = false
  · rw [if_pos hcf] at he
    simp at he
  · rw [if_neg hcf] at he ⊢
    cases hs1 : st.1 with
    | some a =>
        rw [hs1] at he
        dsimp only at he ⊢
        obtain ⟨t, ht, h1, h2⟩ := attemptLoop_events (env.staticNet url)
          (Event.staticAttempt url) m 1 (c + d) e he
        subst ht
        exact ⟨h1, h2⟩
    | none =>
        rw [hs1] at he
        dsimp only at he ⊢
        by_cases hpw : env.playwrightAvailable = false
        · rw [if_pos hpw] at he ⊢
          dsimp only at he ⊢
          obtain ⟨t, ht, h1, h2⟩ := attemptLoop_events (env.staticNet url)
            (Event.staticAttempt url) m 1 (c + d) e he
          subst ht
          exact ⟨h1, h2⟩
        · rw [if_neg hpw] at he ⊢
          dsimp only at he ⊢
          rw [attemptLoop_accum (env.pwNet url) (Event.renderedAttempt url) m 1
            st.2.1 st.2.2] at he ⊢
          dsimp only at he ⊢
          rcases List.mem_append.mp he with he' | he'
          · obtain ⟨t, ht, h1, h2⟩ := attemptLoop_events (env.staticNet url)
              (Event.staticAttempt url) m 1 (c + d) e he'
            subst ht
            exact ⟨h1, Nat.le_trans h2 (attemptLoop_clock_le (env.pwNet url)
              (Event.renderedAttempt url) m 1 st.2.1 [])⟩
          · obtain ⟨t, ht, h1, h2⟩ := attemptLoop_events (env.pwNet url)
              (Event.renderedAttempt url) m 1 st.2.1 e he'
            subst ht
            refine ⟨Nat.le_trans ?_ h1, h2⟩
            exact attemptLoop_clock_le (env.staticNet url) (Event.staticAttempt url) m 1 (c + d) []

theorem fetch_article_head (env : Env) (rc : RobotsCache) (c m : Nat) (url : String)
    (h : NetConsistent env rc) (hcf : (resolvedPolicy env url).canFetch url = true)
    (hm : 0 < m) :
    (fetch_article env rc c m url).2.2.2.head? =
      some (Event.staticAttempt url (c + (resolvedPolicy env url).crawlDelay.getD 0)) := by
  simp only [fetch_article, allowed_eq env rc url h]
  rw [if_neg (by simp [hcf])]
  set d := (resolvedPolicy env url).crawlDelay.getD 0 with hd
  set st := attemptLoop (env.staticNet url) (Event.staticAttempt url) m 1 (c + d) [] with hst
  have hhead : st.2.2.head? = some (Event.staticAttempt url (c + d)) :=
    attemptLoop_head (env.staticNet url) (Event.staticAttempt url) m 1 (c + d) hm
  cases hs1 : st.1 with
  | some a => exact hhead
  | none =>
      dsimp only
      by_cases hpw : env.playwrightAvailable = false
      · rw [if_pos hpw]
        exact hhead
      · rw [if_neg hpw]
        dsimp only
        rw [attemptLoop_accum (env.pwNet url) (Event.renderedAttempt url) m 1 st.2.1 st.2.2]
        exact head_append_some st.2.2 _ _ hhead

/-! ## Outcome helpers -/

theorem urlOutcome_exn (env : Env) (m : Nat) (url : String)
    (hs : ∀ n, env.staticNet url n = FetchResult.exn)
    (hp : ∀ n, env.pwNet url n = FetchResult.exn) :
    urlOutcome env m url = none := by
  unfold urlOutcome
  rw [loopResult_exn (env.staticNet url) hs m 1]
  by_cases hcf : (resolvedPolicy env url).canFetch url = true
  · rw [if_pos hcf]
    cases hpw : env.playwrightAvailable with
    | false => simp
    | true => simp [loopResult_exn (env.pwNet url) hp m 1]
  · rw [if_neg hcf]

theorem reduceOption_length_countP {α : Type} :
    ∀ l : List (Option α), l.reduceOption.length = l.countP (fun o => o.isSome) := by
  intro l
  induction l with
  | nil => rfl
  | cons o t ih =>
      cases o with
      | none => simp [List.reduceOption_cons_of_none, List.countP_cons, ih]
      | some a => simp [List.reduceOption_cons_of_some, List.countP_cons, ih]

/-! ## Claim theorems -/

/-- C1 counterexample: the claim says the batch result has one (optional)
slot per input URL.  In the world `envC1` the single URL is blocked by
robots policy, and `scrape_urls` returns a list of length 0, not a
one-slot sequence with an absent entry. -/
theorem C1_counterexample :
    ¬ ((scrape_urls envC1 ["http://a/b"]).1.length = ["http://a/b"].length) := by
  decide

/-- C1 (amended): `scrape_urls` drops failed URLs instead of keeping null
slots: its result is exactly `reduceOption` of the per-URL outcome list,
which does have one optional slot per input URL; hence the returned list's
length is the number of successes, not the input length. -/
theorem C1_amended_output_shape (env : Env) (urls : List String) :
    (scrape_urls env urls).1 =
        (urls.map (urlOutcome env defaultMaxRetries)).reduceOption ∧
      (urls.map (urlOutcome env defaultMaxRetries)).length = urls.length :=
  ⟨scrape_urls_fst env urls, by simp⟩

/-- C2: for a URL whose static (Light) download raises on every attempt,
`fetch_article` performs exactly `max_retries` static attempts, sleeping the
linear backoff `n` time units after failed attempt `n` for `n < max_retries`
(consecutive attempt start times differ by the attempt index), and every
rendered (fallback) attempt comes after all of them in the trace. -/
theorem C2_light_retry_budget (env : Env) (rc : RobotsCache) (c m : Nat) (url : String)
    (h : NetConsistent env rc)
    (hcf : (resolvedPolicy env url).canFetch url = true)
    (hexn : ∀ n, env.staticNet url n = FetchResult.exn) :
    ∃ pwEvs,
      (fetch_article env rc c m url).2.2.2 =
        (exnTimes m 1 (c + (resolvedPolicy env url).crawlDelay.getD 0)).map
          (Event.staticAttempt url) ++ pwEvs ∧
      (∀ e ∈ pwEvs, e.isRendered = true) ∧
      (exnTimes m 1 (c + (resolvedPolicy env url).crawlDelay.getD 0)).length = m ∧
      ∀ i, i + 1 < m →
        (exnTimes m 1 (c + (resolvedPolicy env url).crawlDelay.getD 0)).get? (i + 1) =
          ((exnTimes m 1 (c + (resolvedPolicy env url).crawlDelay.getD 0)).get? i).map
            (fun t => t + (1 + i)) := by
  obtain ⟨pwEvs, hev, hpw⟩ := fetch_article_exn_trace env rc c m url h hcf hexn
  exact ⟨pwEvs, hev, fun e he => (hpw e he).1, exnTimes_length m 1 _,
    fun i hi => exnTimes_get i m 1 _ hi⟩

/-- C2 witness: the retry-budget theorem instantiated in the concrete world
`envC2w` (allow-all robots, always-failing static downloads, playwright
importable) for one URL with `max_retries = 3`. -/
theorem C2_light_retry_budget_witness :
    ∃ pwEvs,
      (fetch_article envC2w emptyRobotsCache 0 3 "http://a/b").2.2.2 =
        (exnTimes 3 1 (0 + (resolvedPolicy envC2w "http://a/b").crawlDelay.getD 0)).map
          (Event.staticAttempt "http://a/b") ++ pwEvs ∧
      (∀ e ∈ pwEvs, e.isRendered = true) ∧
      (exnTimes 3 1 (0 + (resolvedPolicy envC2w "http://a/b").crawlDelay.getD 0)).length = 3 ∧
      ∀ i, i + 1 < 3 →
        (exnTimes 3 1 (0 + (resolvedPolicy envC2w "http://a/b").crawlDelay.getD 0)).get? (i + 1) =
          ((exnTimes 3 1 (0 + (resolvedPolicy envC2w "http://a/b").crawlDelay.getD 0)).get? i).map
            (fun t => t + (1 + i)) :=
  C2_light_retry_budget envC2w emptyRobotsCache 0 3 "http://a/b"
    (netConsistent_empty envC2w) rfl (fun _ => rfl)

/-- C3: within one session, the robots file of each origin is fetched
exactly once, on the first query for that origin: after a batch, the fetch
log is the list of distinct origins in order of first appearance — no
origin is fetched twice, and an origin is fetched iff some input URL
belongs to it. -/
theorem C3_robots_fetched_once (env : Env) (urls : List String) :
    (scrape_urls env urls).2.1.fetchLog = dedupFrom [] (urls.map origin) ∧
      (dedupFrom [] (urls.map origin)).Nodup ∧
      ∀ d, d ∈ dedupFrom [] (urls.map origin) ↔ d ∈ urls.map origin := by
  refine ⟨?_, dedupFrom_nodup _ _, fun d => ⟨fun hd => (dedupFrom_sub _ _ _ hd).1,
    fun hd => dedupFrom_mem _ _ _ hd rfl⟩⟩
  have hlog := scrapeLoop_fetchLog env urls emptyRobotsCache 0
  simpa [scrape_urls, emptyRobotsCache] using hlog

/-- C4: when the robots fetch for a URL's origin fails, the resolved policy
degrades to allow-all with zero delay: the first `allowed` query answers
`(true, 0)`, the stored delay is 0, and every further query for a URL of
the same origin also answers `(true, 0)` from the cache. -/
theorem C4_robots_failure_allows_all (env : Env) (url : String)
    (h : env.robotsNet (origin url) = none) :
    ((RobotsCache.allowed env emptyRobotsCache url).2.1 = true ∧
      (RobotsCache.allowed env emptyRobotsCache url).2.2 = 0) ∧
    (RobotsCache.allowed env emptyRobotsCache url).1.delays.lookup (origin url) = some 0 ∧
    ∀ url', origin url' = origin url →
      (RobotsCache.allowed env (RobotsCache.allowed env emptyRobotsCache url).1 url').2 =
        (true, 0) := by
  have h1 := allowed_eq env emptyRobotsCache url (netConsistent_empty env)
  have hres : resolvedPolicy env url = emptyPolicy := by
    unfold resolvedPolicy
    rw [h]
    rfl
  refine ⟨⟨?_, ?_⟩, ?_, ?_⟩
  · rw [h1]
    simp [hres, emptyPolicy]
  · rw [h1]
    simp [hres, emptyPolicy]
  · rw [h1]
    simp [cacheStep, emptyRobotsCache, List.lookup, RobotsCache.fetch, h, emptyPolicy]
  · intro url' horig
    have hcons : NetConsistent env (RobotsCache.allowed env emptyRobotsCache url).1 := by
      rw [allowed_fst]
      exact netConsistent_cacheStep env emptyRobotsCache (origin url) (netConsistent_empty env)
    rw [allowed_eq env _ url' hcons]
    have hres' : resolvedPolicy env url' = emptyPolicy := by
      unfold resolvedPolicy
      rw [horig, h]
      rfl
    simp [hres', emptyPolicy]

/-- C4 witness: the degradation theorem instantiated in the world `envC4w`
where every robots fetch fails, for the URL `http://a/b` and the
same-origin URL `http://a/c`. -/
theorem C4_robots_failure_allows_all_witness :
    ((RobotsCache.allowed envC4w emptyRobotsCache "http://a/b").2.1 = true ∧
      (RobotsCache.allowed envC4w emptyRobotsCache "http://a/b").2.2 = 0) ∧
    (RobotsCache.allowed envC4w emptyRobotsCache "http://a/b").1.delays.lookup
      (origin "http://a/b") = some 0 ∧
    (RobotsCache.allowed envC4w
      (RobotsCache.allowed envC4w emptyRobotsCache "http://a/b").1 "http://a/c").2 =
        (true, 0) := by
  have h := C4_robots_failure_allows_all envC4w "http://a/b" rfl
  exact ⟨h.1, h.2.1, h.2.2 "http://a/c" rfl⟩

/-- C5 counterexample: the claim's scenario says the batch output for one
always-timing-out URL without playwright is a one-slot sequence `[absent]`;
the code returns an empty list instead (the failed URL is dropped). -/
theorem C5_counterexample :
    ¬ ((scrape_urls envC5x ["http://a/x"]).1.length = ["http://a/x"].length) := by
  decide

/-- C5 (amended): when playwright is unavailable, a URL that reaches the
fallback stage gets zero rendered attempts (the strategy is abandoned
immediately) and its `fetch_article` result is `None`; in the concrete
always-timeout scenario the static strategy is attempted exactly
`max_retries = 3` times, no rendered attempt happens, and the batch output
is `[]` — the failed URL is omitted rather than represented by a null
slot. -/
theorem C5_amended_no_rendered_attempts :
    (∀ env rc c m url, NetConsistent env rc →
      env.playwrightAvailable = false →
      (∀ n, env.staticNet url n = FetchResult.exn) →
      (fetch_article env rc c m url).1 = none ∧
        ∀ e ∈ (fetch_article env rc c m url).2.2.2, e.isRendered = false) ∧
    ((fetch_article envC5x emptyRobotsCache 0 3 "http://a/x").2.2.2.length = 3 ∧
      ((fetch_article envC5x emptyRobotsCache 0 3 "http://a/x").2.2.2.filter
        (fun e => e.isRendered)).length = 0 ∧
      (scrape_urls envC5x ["http://a/x"]).1 = []) := by
  constructor
  · intro env rc c m url h hpw hexn
    by_cases hcf : (resolvedPolicy env url).canFetch url = true
    · obtain ⟨h1, h2⟩ := fetch_article_exn_nopw env rc c m url h hcf hexn hpw
      refine ⟨h1, fun e he => ?_⟩
      rw [h2] at he
      obtain ⟨t, -, het⟩ := List.mem_map.mp he
      rw [← het]
      rfl
    · have hcf' : (resolvedPolicy env url).canFetch url = false := Bool.eq_false_iff.mpr hcf
      rw [fetch_article_blocked env rc c m url h hcf']
      exact ⟨rfl, fun e he => absurd he (List.not_mem_nil e)⟩
  · exact ⟨by decide, by decide, by decide⟩

/-- C5 witness: the no-rendered-attempts part instantiated in the concrete
world `envC5x` (playwright unavailable, static downloads always raise). -/
theorem C5_amended_no_rendered_attempts_witness :
    (fetch_article envC5x emptyRobotsCache 0 3 "http://a/x").1 = none ∧
      ∀ e ∈ (fetch_article envC5x emptyRobotsCache 0 3 "http://a/x").2.2.2,
        e.isRendered = false :=
  C5_amended_no_rendered_attempts.1 envC5x emptyRobotsCache 0 3 "http://a/x"
    (netConsistent_empty envC5x) rfl (fun _ => rfl)

/-- C6: per-URL failures are contained: a URL blocked by robots policy is
answered `None` with zero download attempts and an untouched clock (never
retried); a URL whose static and rendered downloads always raise yields
`None`; and removing such a doomed URL from the middle of a batch leaves the
other URLs' results unchanged — `fetch_article` is a total function, so no
exception ever escapes into the batch loop. -/
theorem C6_failure_isolation :
    (∀ env rc c m url, NetConsistent env rc →
       (resolvedPolicy env url).canFetch url = false →
       fetch_article env rc c m url = (none, cacheStep env rc (origin url), c, [])) ∧
    (∀ env rc c m url, NetConsistent env rc →
       (∀ n, env.staticNet url n = FetchResult.exn) →
       (∀ n, env.pwNet url n = FetchResult.exn) →
       (fetch_article env rc c m url).1 = none) ∧
    (∀ env pre post u,
       (∀ n, env.staticNet u n = FetchResult.exn) →
       (∀ n, env.pwNet u n = FetchResult.exn) →
       (scrape_urls env (pre ++ u :: post)).1 = (scrape_urls env (pre ++ post)).1) := by
  refine ⟨fun env rc c m url h hcf => fetch_article_blocked env rc c m url h hcf,
    fun env rc c m url h hs hp => ?_, fun env pre post u hsu hpu => ?_⟩
  · rw [fetch_article_fst env rc c m url h]
    exact urlOutcome_exn env m url hs hp
  · rw [scrape_urls_fst, scrape_urls_fst]
    rw [List.map_append, List.map_append, List.map_cons]
    rw [urlOutcome_exn env defaultMaxRetries u hsu hpu]
    rw [List.reduceOption_append, List.reduceOption_append,
      List.reduceOption_cons_of_none]

/-- C6 witness: the isolation theorem in the concrete world `envC6w`: the
blocked URL gets zero attempts, the doomed URL yields `None`, and dropping
the doomed URL from the batch `[good, bad]` leaves the output unchanged. -/
theorem C6_failure_isolation_witness :
    fetch_article envC6w emptyRobotsCache 0 3 "http://a/blocked" =
      (none, cacheStep envC6w emptyRobotsCache (origin "http://a/blocked"), 0, []) ∧
    (fetch_article envC6w emptyRobotsCache 0 3 "http://a/bad").1 = none ∧
    (scrape_urls envC6w (["http://a/good"] ++ "http://a/bad" :: [])).1 =
      (scrape_urls envC6w (["http://a/good"] ++ [])).1 :=
  ⟨C6_failure_isolation.1 envC6w emptyRobotsCache 0 3 "http://a/blocked"
      (netConsistent_empty envC6w) (by decide),
    C6_failure_isolation.2.1 envC6w emptyRobotsCache 0 3 "http://a/bad"
      (netConsistent_empty envC6w) (fun _ => rfl) (fun _ => rfl),
    C6_failure_isolation.2.2 envC6w ["http://a/good"] [] "http://a/bad"
      (fun _ => rfl) (fun _ => rfl)⟩

/-- C7 counterexample: the claim says any two successive fetch attempts to
an origin with crawl delay `d` are at least `d` apart.  In `envC7x` the
origin's delay is 5, yet the first two static attempts for the same URL
start at times 5 and 6 — only the 1-unit backoff separates retries, which
is less than the delay. -/
theorem C7_counterexample :
    (fetch_article envC7x emptyRobotsCache 0 3 "http://a/x").2.2.2 =
        [Event.staticAttempt "http://a/x" 5, Event.staticAttempt "http://a/x" 6,
          Event.staticAttempt "http://a/x" 8] ∧
      ¬ (5 + 5 ≤ 6) := by
  constructor
  · decide
  · decide

/-- C7 (amended): the crawl delay `d` is slept once per URL, not between
retries: every download attempt of a URL starts at least `d` after that
URL's processing begins and no later than the URL's final clock, the first
attempt starts exactly `d` after; consequently, in a sequential batch, every
attempt for a second URL of the same origin starts at least `d` after every
attempt of the first URL — but retries of one URL are separated only by the
linear backoff. -/
theorem C7_amended_delay_once_per_url :
    (∀ env rc c m url, NetConsistent env rc →
       (∀ e ∈ (fetch_article env rc c m url).2.2.2,
         c + (resolvedPolicy env url).crawlDelay.getD 0 ≤ e.time ∧
           e.time ≤ (fetch_article env rc c m url).2.2.1) ∧
       ((resolvedPolicy env url).canFetch url = true → 0 < m →
         (fetch_article env rc c m url).2.2.2.head? =
           some (Event.staticAttempt url
             (c + (resolvedPolicy env url).crawlDelay.getD 0)))) ∧
    (∀ env u1 u2 rest, origin u2 = origin u1 →
       (scrape_urls env (u1 :: u2 :: rest)).2.2.2 =
         (batchFirst env u1).2.2.2 ++
           ((batchSecond env u1 u2).2.2.2 ++
             (scrapeLoop env rest (batchSecond env u1 u2).2.1
               (batchSecond env u1 u2).2.2.1).2.2.2) ∧
       ∀ e1 ∈ (batchFirst env u1).2.2.2, ∀ e2 ∈ (batchSecond env u1 u2).2.2.2,
         e1.time + (resolvedPolicy env u2).crawlDelay.getD 0 ≤ e2.time) := by
  constructor
  · intro env rc c m url h
    exact ⟨fetch_article_events_bounds env rc c m url h,
      fun hcf hm => fetch_article_head env rc c m url h hcf hm⟩
  · intro env u1 u2 rest horig
    constructor
    · simp [scrape_urls, scrapeLoop, batchFirst, batchSecond]
    · intro e1 he1 e2 he2
      have hb1 := fetch_article_events_bounds env emptyRobotsCache 0 defaultMaxRetries u1
        (netConsistent_empty env) e1 he1
      have hcons2 : NetConsistent env (batchFirst env u1).2.1 :=
        netConsistent_fetch_article env emptyRobotsCache 0 defaultMaxRetries u1
          (netConsistent_empty env)
      have hb2 := fetch_article_events_bounds env (batchFirst env u1).2.1
        (batchFirst env u1).2.2.1 defaultMaxRetries u2 hcons2 e2 he2
      exact Nat.le_trans
        (Nat.add_le_add_right hb1.2 ((resolvedPolicy env u2).crawlDelay.getD 0)) hb2.1

/-- C7 witness: the amended pacing theorem in the concrete world `envC7w`
(delay 2): the first attempt of the URL starts exactly at time `0 + 2`, and
in the batch of two same-origin URLs every attempt of the second URL is at
least 2 after every attempt of the first. -/
theorem C7_amended_delay_once_per_url_witness :
    (fetch_article envC7w emptyRobotsCache 0 3 "http://a/1").2.2.2.head? =
        some (Event.staticAttempt "http://a/1"
          (0 + (resolvedPolicy envC7w "http://a/1").crawlDelay.getD 0)) ∧
      ∀ e1 ∈ (batchFirst envC7w "http://a/1").2.2.2,
        ∀ e2 ∈ (batchSecond envC7w "http://a/1" "http://a/2").2.2.2,
          e1.time + (resolvedPolicy envC7w "http://a/2").crawlDelay.getD 0 ≤ e2.time :=
  ⟨(C7_amended_delay_once_per_url.1 envC7w emptyRobotsCache 0 3 "http://a/1"
      (netConsistent_empty envC7w)).2 rfl (by decide),
    (C7_amended_delay_once_per_url.2 envC7w "http://a/1" "http://a/2" [] rfl).2⟩

/-- C8: `fetch_article` never returns a record with empty text: whenever it
returns `some a`, the article's text is present and contains a
non-whitespace character (the `article.text.strip()` guard). -/
theorem C8_records_have_nonempty_text (env : Env) (rc : RobotsCache) (c m : Nat)
    (url : String) (a : ArticleData)
    (h : (fetch_article env rc c m url).1 = some a) :
    ∃ s, a.text = some s ∧ strippedNonEmpty s = true := by
  simp only [fetch_article] at h
  split at h
  · cases h
  · split at h
    · rename_i heq
      rw [attemptLoop_fst] at heq
      cases h
      exact loopResult_some (env.staticNet url) m 1 _ heq
    · split at h
      · cases h
      · rw [attemptLoop_fst] at h
        exact loopResult_some (env.pwNet url) m 1 a h

/-- C8 witness: in the world `envC8w` the first static attempt yields the
article `artC8`; the theorem applied there produces its non-empty text. -/
theorem C8_records_have_nonempty_text_witness :
    ∃ s, artC8.text = some s ∧ strippedNonEmpty s = true :=
  C8_records_have_nonempty_text envC8w emptyRobotsCache 0 3 "http://a/b" artC8 (by decide)

/-- C9 counterexample: the claim says the entry point exits non-zero on an
invalid invocation such as an empty URL list; running `main` with no URLs
completes normally and the process exit status is 0. -/
theorem C9_counterexample : (NewsCrawlerCli.main envC9x []).2 = 0 := rfl

/-- C9 (amended): the entry point performs no argument validation and never
calls `sys.exit`: it completes and exits 0 on every invocation, including
partial failures and the empty URL list. -/
theorem C9_amended_exit_code (env : Env) (urls : List String) :
    (NewsCrawlerCli.main env urls).2 = 0 := rfl

/-- C10: the batch output is exactly the records of the URLs that
succeeded, in input order: `scrape_urls` equals `filterMap id` over the
aligned per-URL outcome list (an order-preserving subsequence of the
successes), and its length is the number of successful URLs. -/
theorem C10_output_success_subsequence (env : Env) (urls : List String) :
    (scrape_urls env urls).1 =
        (urls.map (urlOutcome env defaultMaxRetries)).filterMap id ∧
      (scrape_urls env urls).1.length =
        (urls.map (urlOutcome env defaultMaxRetries)).countP (fun o => o.isSome) := by
  refine ⟨scrape_urls_fst env urls, ?_⟩
  rw [scrape_urls_fst]
  exact reduceOption_length_countP _
